import Mathlib

/-!
# Verification of the ChinaShipParser orchestration core

A shallow embedding of the resumable crawl / account-rotation orchestration
layer of the ChinaShipParser repository, together with theorems settling the
frozen claims about it.

Embedded source files:
* `utility.py` (`canonicalize`)
* `YardParser/rotating_guarded_ship_details_collector_6.py`
  (`canonical_url`, `AccountsPool`, `ShipDetailsCollectorManager`)
* `YardParser/yard_recurser_link_catcher_4.py`
  (`canonical`, `SisterGraphCrawler`)
* `YardParser/guarded_ship_details_collector.py`
  (`ShipDetailsCollectorManager._worker` / multi-threaded run)
* `Parser/fleet_pages_ship_details_collector_2.py` (`_seed_worker_cursors`,
  `_load_accounts_any`)
* `Parser/fleet_table_collector_parallel_1.py` (`FleetParallelRunner`
  progress store)

Python strings are modelled as `List Char` (wrapped in `String` at the
interfaces); the relevant inputs are ASCII, so ASCII case folding and the
ASCII whitespace set model Python's `str.lower` / `str.strip` faithfully on
them.  File systems are modelled as explicit maps; file *existence* of a
content-addressed node file `ship_<md5(url)>.json` is modelled as membership
of the URL in the set of stored URLs (the path is a deterministic function
of the URL).
-/

/-! ## Python string primitives -/

/-- ASCII lower-casing of one character, the effect of Python `str.lower`
on the ASCII inputs used throughout. -/
def pyLower (c : Char) : Char :=
  if 'A' ≤ c && c ≤ 'Z' then Char.ofNat (c.toNat + 32) else c

/-- Python `str.strip()` whitespace set (ASCII part). -/
def pyIsSpace (c : Char) : Bool :=
  c = ' ' || c = '\t' || c = '\n' || c = '\r' || c = '\x0b' || c = '\x0c'

/-- Strip characters satisfying `p` from both ends of a character list
(Python `str.strip`). -/
def pyStripWhile (p : Char → Bool) (s : List Char) : List Char :=
  ((s.dropWhile p).reverse.dropWhile p).reverse

/-- Python `s.strip()`. -/
def pyStrip (s : List Char) : List Char := pyStripWhile pyIsSpace s

/-- Python `s.strip(cs)` for an explicit character set. -/
def pyStripSet (cs : List Char) (s : List Char) : List Char :=
  pyStripWhile (fun c => cs.contains c) s

/-- Python `s.strip()` on `String`. -/
def pyStripStr (s : String) : String := (pyStrip s.toList).asString

/-- Python `s.strip().lower()` on `String` (used for account-email
normalisation). -/
def pyStripLower (s : String) : String :=
  ((pyStrip s.toList).map pyLower).asString

/-! ## `urllib.parse.urlsplit` / `urlunsplit`

Faithful embedding of the CPython `urlsplit`/`urlunsplit` pair on the main
path (scheme detection, `//netloc` splitting, fragment then query split).
The IPv6-bracket validation and the NFKC netloc check, which only raise on
exotic inputs, are not modelled.  -/

structure SplitResult where
  scheme : List Char
  netloc : List Char
  path : List Char
  query : List Char
  fragment : List Char
deriving Repr, DecidableEq

/-- ASCII alphabetic test (`url[0].isascii() and url[0].isalpha()`). -/
def isAsciiAlpha (c : Char) : Bool :=
  ('a' ≤ c && c ≤ 'z') || ('A' ≤ c && c ≤ 'Z')

/-- Characters allowed in a URL scheme after the first one
(`scheme_chars` in `urllib.parse`). -/
def isSchemeChar (c : Char) : Bool :=
  isAsciiAlpha c || ('0' ≤ c && c ≤ '9') || c = '+' || c = '-' || c = '.'

/-- Split a list at the first occurrence of `c`; `none` when `c` is absent
(Python `str.find` + slicing / `str.split(c, 1)`). -/
def splitFirst (c : Char) (l : List Char) : Option (List Char × List Char) :=
  let pre := l.takeWhile (fun d => d ≠ c)
  match l.dropWhile (fun d => d ≠ c) with
  | [] => none
  | _ :: rest => some (pre, rest)

/-- Scheme detection of `urlsplit`: the text before the first `:` is taken
as the (lower-cased) scheme when it starts with an ASCII letter and
continues with scheme characters. -/
def detectScheme (url : List Char) : List Char × List Char :=
  match splitFirst ':' url with
  | none => ([], url)
  | some (pre, rest) =>
    match pre with
    | [] => ([], url)
    | c :: cs =>
      if isAsciiAlpha c && cs.all isSchemeChar
      then ((c :: cs).map pyLower, rest)
      else ([], url)

/-- `_splitnetloc`: after a leading `//`, the netloc runs until the first
`/`, `?` or `#`. -/
def splitNetloc (url : List Char) : List Char × List Char :=
  match url with
  | '/' :: '/' :: rest =>
    (rest.takeWhile (fun c => !(c = '/' || c = '?' || c = '#')),
     rest.dropWhile (fun c => !(c = '/' || c = '?' || c = '#')))
  | _ => ([], url)

/-- `urllib.parse.urlsplit` (with `allow_fragments=True`): unsafe-byte
removal, scheme, netloc, fragment, then query. -/
def urlsplitList (url0 : List Char) : SplitResult :=
  let url1 := url0.dropWhile (fun c => c.toNat ≤ 32)
  let url2 := url1.filter (fun c => !(c = '\t' || c = '\r' || c = '\n'))
  let (scheme, u3) := detectScheme url2
  let (netloc, u4) := splitNetloc u3
  let (u5, fragment) :=
    match splitFirst '#' u4 with
    | none => (u4, [])
    | some (a, b) => (a, b)
  let (path, query) :=
    match splitFirst '?' u5 with
    | none => (u5, [])
    | some (a, b) => (a, b)
  ⟨scheme, netloc, path, query, fragment⟩

/-- `urllib.parse.urlunsplit`. -/
def urlunsplitList (scheme netloc path query fragment : List Char) : List Char :=
  let url := path
  let url :=
    if !netloc.isEmpty || (!url.isEmpty && url.take 2 = ['/', '/']) then
      let url := if !url.isEmpty && url.head? ≠ some '/' then '/' :: url else url
      '/' :: '/' :: (netloc ++ url)
    else url
  let url := if !scheme.isEmpty then scheme ++ ':' :: url else url
  let url := if !query.isEmpty then url ++ '?' :: query else url
  let url := if !fragment.isEmpty then url ++ '#' :: fragment else url
  url

/-! ## Canonical URLs

`canonicalize` in `utility.py`; the same function is duplicated verbatim as
`canonical_url` in `rotating_guarded_ship_details_collector_6.py` and as
`canonical` in `yard_recurser_link_catcher_4.py`. -/

/-- Does `l` end with the literal suffix `suf`? (Python `str.endswith`). -/
def endsWithList (suf l : List Char) : Bool :=
  List.isSuffixOf suf l

/-- Core of `canonicalize(url)` from `utility.py`:
strip whitespace, turn backslashes into slashes, strip quote wrapping,
split the URL, lower-case scheme and host, drop the default port, and
reassemble without the fragment. -/
def canonicalizeList (url : List Char) : List Char :=
  let u := pyStrip url
  let u := u.map (fun c => if c = '\\' then '/' else c)
  let u := pyStripSet ['\'', '"', '<', '>', ' '] u
  if u.isEmpty then []
  else
    let parts := urlsplitList u
    let scheme := parts.scheme.map pyLower
    let netloc := parts.netloc.map pyLower
    let netloc :=
      if endsWithList (':' :: ['8', '0']) netloc && scheme = ['h', 't', 't', 'p']
      then netloc.take (netloc.length - 3) else netloc
    let netloc :=
      if endsWithList (':' :: ['4', '4', '3']) netloc && scheme = ['h', 't', 't', 'p', 's']
      then netloc.take (netloc.length - 4) else netloc
    urlunsplitList scheme netloc parts.path parts.query []

/-- `canonicalize` from `utility.py`. -/
def canonicalize (url : String) : String :=
  (canonicalizeList url.toList).asString

/-- `canonical_url` from `rotating_guarded_ship_details_collector_6.py`
(verbatim duplicate of `utility.canonicalize` in the source). -/
def canonical_url (u : String) : String :=
  (canonicalizeList u.toList).asString

/-- `canonical` from `yard_recurser_link_catcher_4.py`
(verbatim duplicate of `utility.canonicalize` in the source). -/
def canonical (url : String) : String :=
  (canonicalizeList url.toList).asString


/-! ## Association-list helpers (Python `dict` semantics)

Python dicts preserve insertion order; assignment to an existing key
replaces the value in place, assignment to a fresh key appends. -/

/-- First-match association lookup (`d.get(k)` / `k in d`). -/
def alookup {V : Type} (k : String) : List (String × V) → Option V
  | [] => none
  | (k', v) :: rest => if k' = k then some v else alookup k rest

/-- Python `d[k] = v`: replace in place when the key exists, append
otherwise (dict keys are unique, so replacing the first occurrence is the
same as replacing the occurrence). -/
def dictSet {V : Type} (m : List (String × V)) (k : String) (v : V) :
    List (String × V) :=
  match m with
  | [] => [(k, v)]
  | (k', v') :: rest => if k' = k then (k, v) :: rest else (k', v') :: dictSet rest k v

/-- Python `d.setdefault(k, v)`. -/
def setdefault {V : Type} (m : List (String × V)) (k : String) (v : V) :
    List (String × V) :=
  if (alookup k m).isSome then m else m ++ [(k, v)]

/-! ## Frontier loading

`ShipDetailsCollectorManager._load_urls` from
`rotating_guarded_ship_details_collector_6.py` (lines 601-665) and
`SisterGraphCrawler._load_seed_items` from
`yard_recurser_link_catcher_4.py` (lines 232-265).

The JSON traversal of `_load_urls` reduces every accepted input shape to a
stream of `(url, origin)` pairs fed to the inner `add_url`; the embedding
takes that stream as input and models `add_url` plus the final dedup loop
faithfully. -/

/-- One `(url, origin)` pair handed to `add_url` by `_load_urls`'s JSON/txt
traversal (`origin = none` models a missing/`None` origin field). -/
structure SeedEntry where
  url : String
  origin : Option String
deriving Repr, DecidableEq

/-- Result of `_load_urls`: the deduplicated URL list plus the
`_origin_by_url` side map keyed by canonical URL. -/
structure LoadUrlsResult where
  uniq : List String
  originByUrl : List (String × String)
deriving Repr, DecidableEq

/-- `add_url(u, origin)`: strip the URL, drop it when empty, append it to
the raw list, and (when the origin is truthy) assign
`_origin_by_url[canonical_url(u)] = str(origin).strip()` — a plain dict
assignment, so a later entry overwrites an earlier one. -/
def add_url (acc : List String × List (String × String)) (e : SeedEntry) :
    List String × List (String × String) :=
  let u := pyStripStr e.url
  if u = "" then acc
  else
    let urls := acc.1 ++ [u]
    match e.origin with
    | some o =>
      if o ≠ "" then (urls, dictSet acc.2 (canonical_url u) (pyStripStr o))
      else (urls, acc.2)
    | none => (urls, acc.2)

/-- The final dedup loop of `_load_urls`: unique *raw strings* in input
order (`seen`/`uniq` loop over the exact stripped spellings). -/
def dedupRaw (urls : List String) : List String :=
  (urls.foldl (fun (st : List String × List String) u =>
      if st.1.contains u then st else (st.1 ++ [u], st.2 ++ [u])) ([], [])).2

/-- `ShipDetailsCollectorManager._load_urls`, given the stream of
`(url, origin)` entries its JSON/txt traversal produces. -/
def load_urls (entries : List SeedEntry) : LoadUrlsResult :=
  let acc := entries.foldl add_url ([], [])
  ⟨dedupRaw acc.1, acc.2⟩

/-- One orderbook JSON file as consumed by `_load_seed_items`: the yard
`name` and the `orderbook_rows[*].link` values. -/
structure OrderbookFile where
  name : String
  links : List String
deriving Repr, DecidableEq

/-- Code-point comparison of strings, the ordering Python's `sorted` uses
on `str`. -/
def strLeList : List Char → List Char → Bool
  | [], _ => true
  | _ :: _, [] => false
  | a :: as, b :: bs =>
    if a.toNat < b.toNat then true
    else if a.toNat = b.toNat then strLeList as bs
    else false

def strLe (a b : String) : Bool := strLeList a.toList b.toList

/-- Insertion into a sorted list (helper for Python `sorted`). -/
def insertStr (x : String) : List String → List String
  | [] => [x]
  | y :: ys => if strLe x y then x :: y :: ys else y :: insertStr x ys

/-- Python `sorted` on strings (insertion sort; the keys are unique, so
stability is irrelevant). -/
def sortStrings : List String → List String
  | [] => []
  | x :: xs => insertStr x (sortStrings xs)

/-- The `items` dict built by `SisterGraphCrawler._load_seed_items`: all
orderbook rows folded into `canonical(url) -> origin_yard` via
`setdefault` (the first source wins). -/
def seed_items_map (files : List OrderbookFile) : List (String × String) :=
  files.foldl (fun m f =>
    let origin_yard := pyStripStr f.name
    f.links.foldl (fun m lnk =>
      let u := canonical (pyStripStr lnk)
      if u = "" then m else setdefault m u origin_yard) m) []

/-- `SisterGraphCrawler._load_seed_items`: build the `items` dict, then
emit one `{"url", "origin_yard"}` seed per key, sorted
(`items[u]` is total on the keys; modelled by `getD ""`). -/
def load_seed_items (files : List OrderbookFile) : List (String × String) :=
  let items := seed_items_map files
  (sortStrings (items.map Prod.fst)).map (fun u => (u, (alookup u items).getD ""))

/-! ## Accounts

`AccountsPool` from `rotating_guarded_ship_details_collector_6.py`
(loading/dedup lines 180-219, cursor lines 221-243, `force_set_index`
lines 63-71) and `_load_accounts_any` / `_seed_worker_cursors` from
`Parser/fleet_pages_ship_details_collector_2.py`. -/

/-- One parsed account record.  `timestamp = none` models a record without
a `timestamp` field (also a JSON `null`): both sides of the dedup
comparison use `a.get("timestamp") or 0` resp. `a.get("timestamp", 0)`,
i.e. `timestamp.getD 0`. -/
structure Account where
  email : String
  password : String
  timestamp : Option Int
deriving Repr, DecidableEq

/-- `a.get("timestamp") or 0` / `a.get("timestamp", 0)`. -/
def tsOf (a : Account) : Int := a.timestamp.getD 0

/-- The dedup loop of `AccountsPool._load_accounts` (and, identically, of
`_load_accounts_any`): group by `str(email).strip().lower()`, skip empty
emails, first occurrence inserts, a later occurrence replaces iff its
timestamp is `≥` the stored one. -/
def dedup_by_email (accs : List Account) : List (String × Account) :=
  accs.foldl (fun m a =>
    let email := pyStripLower a.email
    if email = "" then m
    else
      match alookup email m with
      | none => m ++ [(email, a)]
      | some old => if tsOf old ≤ tsOf a then dictSet m email a else m) []

/-- `AccountsPool._load_accounts` after parsing: keep records with truthy
email and password, dedup by email, return the surviving records in
insertion order (`list(by_email.values())`). -/
def load_accounts (accs : List Account) : List Account :=
  let accs := accs.filter (fun a => a.email ≠ "" && a.password ≠ "")
  (dedup_by_email accs).map Prod.snd

/-- `AccountsPool._load_cursor`: the persisted index is used only when it
parses and lies in `[0, len(accounts))`; anything else (missing file,
corrupt JSON, out-of-range value) falls back to `0`.  `content = none`
models an unreadable/absent cursor file. -/
def load_cursor (n : Nat) (content : Option Int) : Nat :=
  match content with
  | some i => if 0 ≤ i ∧ i < (n : Int) then i.toNat else 0
  | none => 0

/-- `AccountsPool.next`: advance the cursor modulo the pool size (the new
value is then persisted by `_save_cursor`). -/
def pool_next (n : Nat) (idx : Nat) : Nat := (idx + 1) % n

/-- `AccountsPool.force_set_index`: `int(idx) % len(accounts)` — Python
`%` on a positive modulus is `Int.emod`, which is non-negative. -/
def force_set_index (n : Nat) (i : Int) : Nat := (i % (n : Int)).toNat

/-- Cursor operations that mutate `_idx` after construction. -/
inductive PoolOp where
  | next
  | forceSet (i : Int)
deriving Repr, DecidableEq

def applyPoolOp (n : Nat) (idx : Nat) : PoolOp → Nat
  | .next => pool_next n idx
  | .forceSet i => force_set_index n i

def applyPoolOps (n : Nat) (idx : Nat) (ops : List PoolOp) : Nat :=
  ops.foldl (applyPoolOp n) idx

/-- `_seed_worker_cursors` from `fleet_pages_ship_details_collector_2.py`:
the per-worker cursor file map after seeding.  `files : Nat → Option Int`
is the content of `account_cursor.w<wid>.json` (`none` = absent);
`baseRaw` is the `index` field of the base cursor file when it exists and
parses as an int (`none` otherwise).  A worker whose cursor file already
exists is skipped; a missing one is seeded with
`(base_index + wid) % n`. -/
def seed_base (n : Nat) (baseRaw : Option Int) : Nat :=
  match baseRaw with
  | some i => (i % (n : Int)).toNat
  | none => 0

def seed_worker_cursors (n : Nat) (baseRaw : Option Int) (workers : Nat)
    (files : Nat → Option Int) : Nat → Option Int :=
  let base : Nat := seed_base n baseRaw
  (List.range (max 1 workers)).foldl (fun fs wid =>
    let idx := (base + wid) % n
    match fs wid with
    | some _ => fs
    | none => Function.update fs wid (some (idx : Int))) files

/-! ## Progress store

`FleetParallelRunner` from `Parser/fleet_table_collector_parallel_1.py`:
`_load_progress` (lines 45-59), `_save_progress` (61-65, temp-file +
atomic rename) and `_mark_done` (67-71).  `_mark_done` runs under
`_progress_lock`, so the read-merge-write cycle is modelled as one pure
function from the previous file content to the new one.  The done map is
keyed by `str(page_no)` exactly as in the JSON file. -/

structure DoneEntry where
  url : String
  rows : Nat
  ts : Nat
deriving Repr, DecidableEq

/-- The progress structure `{done: {...}, meta: {...}}`.  `meta` holds the
cached page index (`meta["index"]`, a list of `{page_no, url}` records). -/
structure Progress where
  done : List (String × DoneEntry)
  meta : List (Nat × String)
deriving Repr, DecidableEq

/-- `_load_progress`: the parsed file, or `{done:{}, meta:{}}` when the
file is absent or corrupt (`none`). -/
def load_progress (file : Option Progress) : Progress :=
  file.getD ⟨[], []⟩

/-- `_mark_done(page_no, url, rows_count)` under the progress lock: read
the file, set `done[str(page_no)]`, write the result back atomically.
The returned value is the new file content. -/
def mark_done (file : Option Progress) (page_no : Nat) (url : String)
    (rows_count ts : Nat) : Progress :=
  let prog := load_progress file
  { prog with done := dictSet prog.done (Nat.repr page_no) ⟨url, rows_count, ts⟩ }

/-! ### Injectivity of `Nat.repr`

`_mark_done` keys the done map by `str(page_no)`; distinct page numbers
give distinct keys because decimal printing is injective.  We prove this
for core's `Nat.repr` via a fuel-free reference function. -/

/-- Fuel-free decimal digit list of a natural number (most significant
first), the reference for `Nat.toDigitsCore`. -/
def decDigits (n : Nat) : List Char :=
  if _h : n < 10 then [Nat.digitChar n]
  else decDigits (n / 10) ++ [Nat.digitChar (n % 10)]
decreasing_by
  exact Nat.div_lt_self (by omega) (by omega)

/-! ## Sister-graph crawler dedup state

`SisterGraphCrawler` from `yard_recurser_link_catcher_4.py`: the
`_seen_urls` set seeded in `__init__` (lines 164-192) and
`_append_discovered` (lines 202-223). -/

/-- In-memory dedup state plus the durable discovered JSONL log.  `seen`
is `_seen_urls` (a set, modelled as a duplicate-free insertion list);
`discoveredLog` is the `(url, origin_yard)` records of the JSONL file, in
file order. -/
structure CrawlerDedup where
  seen : List String
  discoveredLog : List (String × String)
deriving Repr, DecidableEq

/-- Set-insert for `_seen_urls.add`. -/
def seenAdd (seen : List String) (u : String) : List String :=
  if seen.contains u then seen else seen ++ [u]

/-- The `__init__` seeding of `_seen_urls` (lines 164-192).

For every node file the canonical URL is added.  The loop over the
existing discovered JSONL (lines 179-192) computes
`u = canonical(rec.get("url", ""))` for every line and then — exactly as
in the source — executes `pass`: it contributes nothing to `_seen_urls`.
`nodeUrls` are the `url` fields of the `ship_*.json` files, `logRecs` the
records already in the discovered file. -/
def initSeen (nodeUrls : List String) (logRecs : List (String × String)) :
    List String :=
  let seen := nodeUrls.foldl (fun seen u =>
    let c := canonical u
    if c ≠ "" then seenAdd seen c else seen) []
  let seen := logRecs.foldl (fun seen rec =>
    let _u := canonical rec.1
    seen) seen
  seen

/-- `SisterGraphCrawler` state right after `__init__`, given the on-disk
node files and the existing discovered log. -/
def crawlerInit (nodeUrls : List String) (logRecs : List (String × String)) :
    CrawlerDedup :=
  ⟨initSeen nodeUrls logRecs, logRecs⟩

/-- `_append_discovered(items)`: keep only items whose canonical URL is
non-empty and not yet in `_seen_urls`, add those to `_seen_urls`, and
append them (canonicalised) to the discovered JSONL. -/
def append_discovered (st : CrawlerDedup) (items : List (String × String)) :
    CrawlerDedup :=
  let (seen, to_write) := items.foldl (fun (acc : List String × List (String × String)) it =>
    let u := canonical it.1
    if u = "" then acc
    else if acc.1.contains u then acc
    else (acc.1 ++ [u], acc.2 ++ [(u, it.2)])) (st.seen, [])
  ⟨seen, st.discoveredLog ++ to_write⟩

/-! ## Rotating guarded collector

`ShipDetailsCollectorManager` from
`rotating_guarded_ship_details_collector_6.py` (`run`, lines 668-782, and
`_parse_with_retry`, lines 803-821).

The page fetcher (`ShipDetailsParser`) and the login actions are the
external collaborators; they are modelled by an oracle:

* `fetch k` is the outcome of the `k`-th `parse_ship_details` call of the
  run — its extracted table count and whether the daily-limit banner is on
  the resulting page (`has_daily_limit_banner` inspects the page of the
  most recent load);
* `loginOk k` is the outcome of the `k`-th `_login_automatically` call
  (`run` only branches on the result of the *initial* login attempt; the
  result of rotation-time logins is discarded, as in the source).

The bare `parser.open(url)` inside `_parse_with_retry`'s retry loop is
immediately superseded by the page load of the following
`parse_ship_details` call, so one oracle step per `parse_ship_details`
call captures the page state the code observes.  The `try/except` around
an item never fires in the model because the oracle is total, so
`*.error.json` markers are not produced; `_stop_event` is created but
never set anywhere in this source file, so it is not part of the state. -/

structure FetchResult where
  tables : Nat
  banner : Bool
deriving Repr, DecidableEq

structure RotOracle where
  fetch : Nat → FetchResult
  loginOk : Nat → Bool

/-- Manager configuration (the dataclass fields the control flow reads). -/
structure RotCfg where
  min_tables_required : Nat
  batch_logout_every : Nat
  relogin_manual : Bool
  max_items_per_run : Option Nat
deriving Repr, DecidableEq

/-- Mutable state of one `run`.  `cursorWrites` is the append-only history
of `_save_cursor` writes (its last element is the cursor-file content);
`store` is the set of URLs whose `ship_<md5(url)>.json` node file exists;
`fetchCount`/`loginCount` index the oracle. -/
structure RotState where
  accounts : List Account
  idx : Nat
  cursorWrites : List Nat
  store : List String
  processed_total : Nat
  processed_since_login : Nat
  fetchCount : Nat
  loginCount : Nat
deriving Repr, DecidableEq

/-- Observable actions of the run, in program order. -/
inductive RotAction where
  | fetchPage (url : String)
  | logoutClick
  | advanceCursor (newIdx : Nat)
  | loginAs (email : String)
  | manualLoginWait
  | saveNode (url : String) (tables : Nat)
deriving Repr, DecidableEq

/-- Email of the account at index `j` (`accounts[j]["email"]`; total via
`getD`, only ever used with `j < accounts.length`). -/
def emailAt (accounts : List Account) (j : Nat) : String :=
  (accounts.getD j ⟨"", "", none⟩).email

/-- One `parse_ship_details` call: consume one oracle step. -/
def doFetch (oracle : RotOracle) (url : String) (s : RotState) :
    FetchResult × RotState × List RotAction :=
  (oracle.fetch s.fetchCount, { s with fetchCount := s.fetchCount + 1 },
   [.fetchPage url])

/-- The retry loop of `_parse_with_retry`: while the table count is below
`min_tables` and attempts remain, re-open and re-parse.  `remaining`
counts down from `retries`. -/
def retryLoop (oracle : RotOracle) (url : String) (min_tables : Nat) :
    Nat → FetchResult → RotState → FetchResult × RotState × List RotAction
  | 0, last, s => (last, s, [])
  | remaining + 1, last, s =>
    if last.tables < min_tables then
      let (r, s', a) := doFetch oracle url s
      let (r'', s'', a') := retryLoop oracle url min_tables remaining r s'
      (r'', s'', a ++ a')
    else (last, s, [])

/-- `_parse_with_retry(parser, url, min_tables, retries=2)`: first parse,
then up to `retries` re-parses while the result stays thin.  Returns the
last result; its `banner` field is the page state
`has_daily_limit_banner` sees right after this call. -/
def parse_with_retry (oracle : RotOracle) (url : String) (min_tables : Nat)
    (retries : Nat) (s : RotState) : FetchResult × RotState × List RotAction :=
  let (r, s', a) := doFetch oracle url s
  let (r'', s'', a') := retryLoop oracle url min_tables retries r s'
  (r'', s'', a ++ a')

/-- The rotation block that appears (three times, verbatim) in `run`:
`_logout_safely`; then in automatic mode `accounts.next()` (advance the
cursor modulo the pool size and persist it) followed by
`_login_automatically` with the new account, in manual mode
`_login_manually` (a timed wait, no cursor change). -/
def rotateAccount (cfg : RotCfg) (s : RotState) : RotState × List RotAction :=
  if cfg.relogin_manual then
    (s, [.logoutClick, .manualLoginWait])
  else
    let n := s.accounts.length
    let j := (s.idx + 1) % n
    ({ s with idx := j, cursorWrites := s.cursorWrites ++ [j],
              loginCount := s.loginCount + 1 },
     [.logoutClick, .advanceCursor j, .loginAs (emailAt s.accounts j)])

/-- The body of `run`'s `for url in urls_pending` loop for one URL
(lines 703-771): skip if the node file appeared meanwhile; parse with
retry; on the daily-limit banner rotate, zero the session counter and
re-parse the same URL; save the node; after saving, rotate again when the
result is still thin or when the batch quota is reached. -/
def processItem (cfg : RotCfg) (oracle : RotOracle) (s : RotState)
    (url : String) : RotState × List RotAction :=
  if s.store.contains url then (s, [])
  else
    let (r1, s1, a1) := parse_with_retry oracle url cfg.min_tables_required 2 s
    let (r, s2, a2) :=
      if r1.banner then
        let (sr, ar) := rotateAccount cfg s1
        let sr := { sr with processed_since_login := 0 }
        let (r2, s2, a2) := parse_with_retry oracle url cfg.min_tables_required 2 sr
        (r2, s2, a1 ++ ar ++ a2)
      else (r1, s1, a1)
    let s3 := { s2 with store := s2.store ++ [url],
                        processed_total := s2.processed_total + 1,
                        processed_since_login := s2.processed_since_login + 1 }
    let a3 := a2 ++ [.saveNode url r.tables]
    if r.tables < cfg.min_tables_required then
      let (s4, a4) := rotateAccount cfg s3
      ({ s4 with processed_since_login := 0 }, a3 ++ a4)
    else if cfg.batch_logout_every ≠ 0 ∧
            cfg.batch_logout_every ≤ s3.processed_since_login then
      let (s4, a4) := rotateAccount cfg s3
      ({ s4 with processed_since_login := 0 }, a3 ++ a4)
    else (s3, a3)

/-- The initial login of `run` (lines 687-700): manual wait, or automatic
login with the current account falling back to the next account once. -/
def initialLogin (cfg : RotCfg) (oracle : RotOracle) (s : RotState) :
    RotState × List RotAction :=
  if cfg.relogin_manual then (s, [.manualLoginWait])
  else
    let ok := oracle.loginOk s.loginCount
    let s1 := { s with loginCount := s.loginCount + 1 }
    let a1 := [.loginAs (emailAt s.accounts s.idx)]
    if ok then (s1, a1)
    else
      let n := s1.accounts.length
      let j := (s1.idx + 1) % n
      let s2 := { s1 with idx := j, cursorWrites := s1.cursorWrites ++ [j],
                          loginCount := s1.loginCount + 1 }
      (s2, a1 ++ [.advanceCursor j, .loginAs (emailAt s1.accounts j)])

/-- The pending filter shared verbatim by `run` in
`rotating_guarded_ship_details_collector_6.py` (line 670) and `run` in
`guarded_ship_details_collector.py` (line 373):
`[u for u in urls if not self._node_path(u).exists()]`, recomputed from
the node store at every run start. -/
def pending_urls (urls : List String) (store : List String) : List String :=
  urls.filter (fun u => !(store.contains u))

/-- `ShipDetailsCollectorManager.run` (lines 668-782): recompute pending
from the node store, truncate to `max_items_per_run`, return
`(len(urls), 0)` straight away when nothing is pending, else log in and
fold the per-item body over the pending list.  Returns the `(assigned,
processed)` pair together with the final state and the action trace. -/
def runCollector (cfg : RotCfg) (oracle : RotOracle) (urls : List String)
    (s0 : RotState) : (Nat × Nat) × RotState × List RotAction :=
  let urls_pending := pending_urls urls s0.store
  let urls_pending :=
    match cfg.max_items_per_run with
    | some m => if 0 < m then urls_pending.take m else urls_pending
    | none => urls_pending
  if urls_pending.isEmpty then ((urls.length, 0), s0, [])
  else
    let s1 := { s0 with processed_total := 0, processed_since_login := 0 }
    let (s2, a2) := initialLogin cfg oracle s1
    let (sF, aF) := urls_pending.foldl
      (fun (acc : RotState × List RotAction) url =>
        let (s', a') := processItem cfg oracle acc.1 url
        (s', acc.2 ++ a')) (s2, a2)
    ((urls.length, sF.processed_total), sF, aF)

/-! ## Guarded collector: multi-worker stop-flag cancellation

`ShipDetailsCollectorManager._worker` from
`guarded_ship_details_collector.py` (lines 311-368) plus the shared queue
and `_stop_event`.  Workers are modelled by an interleaved transition
system whose atomic steps match the code's observation points:

* `while not self._stop_event.is_set()` — the pre-pop check;
* `self._q.get(timeout=1.5)` — the pop (an `Empty` timeout ends the
  worker; the timeout fires only on an empty queue);
* `if self._stop_event.is_set(): task_done; break` — the post-pop check,
  which discards the popped item;
* `parser.parse_ship_details(url)` — the fetch (no stop check between the
  post-pop check and the fetch, faithful to the code);
* node write + table-count guard — on a thin result the worker logs out,
  sets the stop flag and drains the queue with `get_nowait` until empty.

The fetch outcome is an oracle `tables : url → count`,
`fails : url → Bool` (an exception writes an error marker instead of a
node).  `fetched` is the ghost log of URLs passed to
`parse_ship_details`. -/

/-- Program counter of one worker thread. -/
inductive WPC where
  | loopCheck
  | wantPop
  | popped (url : String)
  | ready (url : String)
  | working (url : String)
  | draining
  | finished
deriving Repr, DecidableEq

/-- Oracle for the guarded workers. -/
structure GOracle where
  tables : String → Nat
  fails : String → Bool
  min_tables_required : Nat

/-- Shared state: the work queue, the stop flag, every worker's program
counter, and the ghost logs of fetched / node-saved / error-marked URLs. -/
structure GState where
  queue : List String
  stop : Bool
  pcs : Nat → WPC
  fetched : List String
  store : List String
  errors : List String

/-- One atomic step of some worker `w`. -/
inductive GStep (oracle : GOracle) : GState → GState → Prop
  | checkExit (s : GState) (w : Nat) :
      s.pcs w = .loopCheck → s.stop = true →
      GStep oracle s { s with pcs := Function.update s.pcs w .finished }
  | checkEnter (s : GState) (w : Nat) :
      s.pcs w = .loopCheck → s.stop = false →
      GStep oracle s { s with pcs := Function.update s.pcs w .wantPop }
  | popItem (s : GState) (w : Nat) (u : String) (rest : List String) :
      s.pcs w = .wantPop → s.queue = u :: rest →
      GStep oracle s { s with queue := rest,
                              pcs := Function.update s.pcs w (.popped u) }
  | popEmpty (s : GState) (w : Nat) :
      s.pcs w = .wantPop → s.queue = [] →
      GStep oracle s { s with pcs := Function.update s.pcs w .finished }
  | postCheckStop (s : GState) (w : Nat) (u : String) :
      s.pcs w = .popped u → s.stop = true →
      GStep oracle s { s with pcs := Function.update s.pcs w .finished }
  | postCheckGo (s : GState) (w : Nat) (u : String) :
      s.pcs w = .popped u → s.stop = false →
      GStep oracle s { s with pcs := Function.update s.pcs w (.ready u) }
  | startFetch (s : GState) (w : Nat) (u : String) :
      s.pcs w = .ready u →
      GStep oracle s { s with pcs := Function.update s.pcs w (.working u),
                              fetched := s.fetched ++ [u] }
  | finishOk (s : GState) (w : Nat) (u : String) :
      s.pcs w = .working u → oracle.fails u = false →
      oracle.min_tables_required ≤ oracle.tables u →
      GStep oracle s { s with store := s.store ++ [u],
                              pcs := Function.update s.pcs w .loopCheck }
  | finishLow (s : GState) (w : Nat) (u : String) :
      s.pcs w = .working u → oracle.fails u = false →
      oracle.tables u < oracle.min_tables_required →
      GStep oracle s { s with store := s.store ++ [u], stop := true,
                              pcs := Function.update s.pcs w .draining }
  | finishErr (s : GState) (w : Nat) (u : String) :
      s.pcs w = .working u → oracle.fails u = true →
      GStep oracle s { s with errors := s.errors ++ [u],
                              pcs := Function.update s.pcs w .loopCheck }
  | drainOne (s : GState) (w : Nat) (u : String) (rest : List String) :
      s.pcs w = .draining → s.queue = u :: rest →
      GStep oracle s { s with queue := rest }
  | drainDone (s : GState) (w : Nat) :
      s.pcs w = .draining → s.queue = [] →
      GStep oracle s { s with pcs := Function.update s.pcs w .finished }

/-- Reflexive-transitive closure of the interleaved step relation. -/
inductive GReach (oracle : GOracle) : GState → GState → Prop
  | refl (s : GState) : GReach oracle s s
  | tail {s t u : GState} : GReach oracle s t → GStep oracle t u →
      GReach oracle s u

/-- Initial state of the threaded run: the pending URLs enqueued by
`_enqueue_pending`, flag clear, every worker at the top of its loop. -/
def gInit (pending : List String) : GState :=
  ⟨pending, false, fun _ => .loopCheck, [], [], []⟩

/-- Global invariant of the threaded run: the queue never re-acquires an
item that was popped, and everything saved was first fetched. -/
def GInv (s : GState) : Prop :=
  s.queue.Nodup ∧
  (∀ w u, (s.pcs w = .popped u ∨ s.pcs w = .ready u ∨ s.pcs w = .working u) →
    u ∉ s.queue) ∧
  (∀ u ∈ s.fetched, u ∉ s.queue) ∧
  (∀ u ∈ s.store, u ∈ s.fetched) ∧
  (∀ w u, s.pcs w = .working u → u ∈ s.fetched)

/-- No worker holds `u` past its post-pop check, and `u` was never
fetched — preserved by every step once the stop flag is up (entering
`ready` requires observing a clear flag). -/
def SafeU (u : String) (s : GState) : Prop :=
  s.stop = true ∧ u ∉ s.fetched ∧
  ∀ w, s.pcs w ≠ .ready u ∧ s.pcs w ≠ .working u

/-! ## Concrete instances used by witnesses -/

/-- Oracle for the stop-flag witness run: every page yields 0 tables, the
guard threshold is 1, nothing raises. -/
def gwOracle : GOracle := ⟨fun _ => 0, fun _ => false, 1⟩

def gw0 : GState := gInit ["http://a", "http://b"]
def gw1 : GState := { gw0 with pcs := Function.update gw0.pcs 0 .wantPop }
def gw2 : GState := { gw1 with queue := ["http://b"],
                               pcs := Function.update gw1.pcs 0 (.popped "http://a") }
def gw3 : GState := { gw2 with pcs := Function.update gw2.pcs 0 (.ready "http://a") }
def gw4 : GState := { gw3 with pcs := Function.update gw3.pcs 0 (.working "http://a"),
                               fetched := gw3.fetched ++ ["http://a"] }
def gw5 : GState := { gw4 with store := gw4.store ++ ["http://a"], stop := true,
                               pcs := Function.update gw4.pcs 0 .draining }

/-- Concrete rotation oracle for witnesses: every fetch returns 7 tables
with the daily-limit banner shown, every login succeeds. -/
def rotWOracle : RotOracle := ⟨fun _ => ⟨7, true⟩, fun _ => true⟩

/-- Rotation oracle for the idempotent-resume witness (never consulted on
an all-done frontier). -/
def rotIdleOracle : RotOracle := ⟨fun _ => ⟨0, false⟩, fun _ => true⟩

def rotWCfg : RotCfg := ⟨7, 50, false, none⟩

def rotWAccounts : List Account :=
  [⟨"a@x.com", "pa", none⟩, ⟨"b@x.com", "pb", none⟩]

def rotWState : RotState := ⟨rotWAccounts, 0, [], [], 0, 0, 0, 0⟩

def rotResumeState : RotState := ⟨rotWAccounts, 0, [], ["http://a"], 0, 0, 0, 0⟩

/-! # Claims -/

theorem alookup_append_of_eq_none {V : Type} (k : String) (m₁ m₂ : List (String × V))
    (h : alookup k m₁ = none) : alookup k (m₁ ++ m₂) = alookup k m₂ := by
  induction m₁ with
  | nil => simp
  | cons p rest ih =>
    by_cases hk : p.1 = k
    · simp [alookup, hk] at h
    · simp only [alookup, hk, if_neg, List.cons_append] at h ⊢
      exact ih h

theorem alookup_eq_none_iff {V : Type} (k : String) (m : List (String × V)) :
    alookup k m = none ↔ k ∉ m.map Prod.fst := by
  induction m with
  | nil => simp [alookup]
  | cons p rest ih =>
    by_cases hk : p.1 = k
    · simp [alookup, hk]
    · simp [alookup, hk, ih, Ne.symm hk]

/-- Setting key `k` does not change the binding of any other key. -/
theorem alookup_dictSet_ne {V : Type} (m : List (String × V)) (k k' : String) (v : V)
    (h : k' ≠ k) : alookup k' (dictSet m k v) = alookup k' m := by
  induction m with
  | nil => simp [dictSet, alookup, Ne.symm h]
  | cons p rest ih =>
    obtain ⟨pk, pv⟩ := p
    by_cases hp : pk = k
    · subst hp
      simp [dictSet, alookup, Ne.symm h]
    · simp [dictSet, hp, alookup, ih]

/-- Setting key `k` makes `k` look up the new value. -/
theorem alookup_dictSet_self {V : Type} (m : List (String × V)) (k : String) (v : V) :
    alookup k (dictSet m k v) = some v := by
  induction m with
  | nil => simp [dictSet, alookup]
  | cons p rest ih =>
    obtain ⟨pk, pv⟩ := p
    by_cases hp : pk = k
    · subst hp; simp [dictSet, alookup]
    · simp [dictSet, hp, alookup, ih]

theorem decDigits_of_lt {n : Nat} (h : n < 10) :
    decDigits n = [Nat.digitChar n] := by
  rw [decDigits, dif_pos h]

theorem decDigits_of_ge {n : Nat} (h : ¬ n < 10) :
    decDigits n = decDigits (n / 10) ++ [Nat.digitChar (n % 10)] := by
  rw [decDigits, dif_neg h]

theorem toDigitsCore_eq_decDigits :
    ∀ (fuel n : Nat) (acc : List Char), n < fuel →
    Nat.toDigitsCore 10 fuel n acc = decDigits n ++ acc := by
  intro fuel
  induction fuel with
  | zero => intro n acc h; omega
  | succ fuel ih =>
    intro n acc h
    rw [Nat.toDigitsCore]
    by_cases h10 : n / 10 = 0
    · have hn : n < 10 := by omega
      rw [if_pos h10, decDigits_of_lt hn, Nat.mod_eq_of_lt hn]
      simp
    · have hn : ¬ n < 10 := by
        intro hlt
        exact h10 (Nat.div_eq_of_lt hlt)
      have hdiv : n / 10 < n := Nat.div_lt_self (by omega) (by omega)
      rw [if_neg h10, ih (n / 10) _ (by omega), decDigits_of_ge hn]
      simp

theorem digitChar_val_of_lt (d : Nat) (h : d < 10) :
    (Nat.digitChar d).toNat - 48 = d := by
  interval_cases d <;> decide

/-- Folding the decimal digits of `n` over `acc*10 + digit` starting from
`a` yields `a * 10 ^ (#digits) + n`. -/
theorem foldl_decDigits (n : Nat) : ∀ (a : Nat),
    List.foldl (fun acc c => acc * 10 + (c.toNat - 48)) a (decDigits n) =
      a * 10 ^ (decDigits n).length + n := by
  induction n using Nat.strong_induction_on with
  | _ n ih =>
    intro a
    by_cases h : n < 10
    · rw [decDigits_of_lt h]
      simp [digitChar_val_of_lt n h]
    · have hdiv : n / 10 < n := Nat.div_lt_self (by omega) (by omega)
      rw [decDigits_of_ge h]
      rw [List.foldl_append, ih (n / 10) hdiv a]
      simp only [List.foldl_cons, List.foldl_nil, List.length_append,
        List.length_cons, List.length_nil]
      rw [digitChar_val_of_lt (n % 10) (Nat.mod_lt n (by omega))]
      have hmod := Nat.div_add_mod n 10
      ring_nf
      omega

theorem decDigits_injective : Function.Injective decDigits := by
  intro m n h
  have hm := foldl_decDigits m 0
  have hn := foldl_decDigits n 0
  rw [h] at hm
  omega

/-- Decimal printing of naturals is injective. -/
theorem Nat.repr_injective : Function.Injective Nat.repr := by
  intro m n h
  unfold Nat.repr Nat.toDigits at h
  rw [toDigitsCore_eq_decDigits (m + 1) m [] (by omega),
    toDigitsCore_eq_decDigits (n + 1) n [] (by omega)] at h
  simp only [List.append_nil] at h
  have : decDigits m = decDigits n := by
    have := congrArg String.data h
    simpa [List.asString] using this
  exact decDigits_injective this


/-- C7: Canonical URL normalization.
`canonical("HTTP://Example.com:80/x?q=1#frag") = canonical("http://example.com/x?q=1")`
for both the `utility.py` and the collector copy of the function; the
normal form lower-cases scheme and host, strips the default port, drops
the fragment, trims whitespace/quote wrapping, and leaves path and query
untouched (the query keeps its original case). -/
theorem canonical_url_normalization :
    canonicalize "HTTP://Example.com:80/x?q=1#frag" =
      canonicalize "http://example.com/x?q=1" ∧
    canonical_url "HTTP://Example.com:80/x?q=1#frag" =
      canonical_url "http://example.com/x?q=1" ∧
    canonical "HTTP://Example.com:80/x?q=1#frag" =
      canonical "http://example.com/x?q=1" ∧
    canonical_url "HTTP://Example.com:80/x?q=1#frag" = "http://example.com/x?q=1" ∧
    canonicalize " 'http://example.com/x?q=1' " = "http://example.com/x?q=1" ∧
    canonicalize "  \"HTTPS://Example.COM:443/p/a?b=C#frag\"  " =
      "https://example.com/p/a?b=C" := by
  decide

/-- Generic fold specification behind `_seed_worker_cursors`: seeding the
workers `0..k-1` writes `(base + wid) % n` exactly to the missing cursor
files of those workers and touches nothing else. -/
theorem seedFold_spec (n base : Nat) (k : Nat) (files : Nat → Option Int) :
    ∀ w, (List.range k).foldl (fun fs wid =>
        match fs wid with
        | some _ => fs
        | none => Function.update fs wid (some (((base + wid) % n : Nat) : Int))) files w =
      if w < k ∧ files w = none then some (((base + w) % n : Nat) : Int) else files w := by
  induction k with
  | zero => intro w; simp
  | succ k ih =>
    intro w
    rw [List.range_succ, List.foldl_append, List.foldl_cons, List.foldl_nil]
    by_cases hfk : files k = none
    · have hgk : (List.range k).foldl (fun fs wid =>
          match fs wid with
          | some _ => fs
          | none => Function.update fs wid (some (((base + wid) % n : Nat) : Int))) files k
          = none := by
        rw [ih k]; simp [hfk]
      simp only [hgk]
      by_cases hw : w = k
      · subst hw
        rw [Function.update_same]
        simp [hfk, Nat.lt_succ_self]
      · rw [Function.update_noteq hw, ih w]
        by_cases hcond : files w = none
        · by_cases hlt : w < k
          · simp [hlt, hcond, Nat.lt_succ_of_lt hlt]
          · have hnlt : ¬ w < k + 1 := by omega
            simp [hlt, hnlt]
        · simp [hcond]
    · obtain ⟨c, hc⟩ := Option.ne_none_iff_exists'.mp hfk
      have hgk : (List.range k).foldl (fun fs wid =>
          match fs wid with
          | some _ => fs
          | none => Function.update fs wid (some (((base + wid) % n : Nat) : Int))) files k
          = some c := by
        rw [ih k]; simp [hc]
      simp only [hgk]
      rw [ih w]
      by_cases hcond : files w = none
      · have hw : w ≠ k := by
          intro h; subst h; rw [hc] at hcond; cases hcond
        by_cases hlt : w < k
        · simp [hlt, hcond, Nat.lt_succ_of_lt hlt]
        · have hnlt : ¬ w < k + 1 := by omega
          simp [hlt, hnlt]
      · simp [hcond]

/-- C5: Worker-cursor seeding.  With `n ≠ 0` accounts, seeding `W` workers
writes, for every worker `w < max 1 W` whose cursor file is missing, a
cursor containing `(base_index + w) % n`; an existing cursor file keeps
its content, and no file outside the worker range is touched. -/
theorem worker_cursor_seeding (n : Nat) (baseRaw : Option Int) (workers : Nat)
    (files : Nat → Option Int) (hn : n ≠ 0) :
    (∀ w, w < max 1 workers → files w = none →
      seed_worker_cursors n baseRaw workers files w =
        some (((seed_base n baseRaw + w) % n : Nat) : Int)) ∧
    (∀ w c, files w = some c → seed_worker_cursors n baseRaw workers files w = some c) ∧
    (∀ w, max 1 workers ≤ w → seed_worker_cursors n baseRaw workers files w = files w) := by
  have key := seedFold_spec n (seed_base n baseRaw) (max 1 workers) files
  refine ⟨?_, ?_, ?_⟩
  · intro w hw hmiss
    rw [seed_worker_cursors, key w]
    simp [hw, hmiss]
  · intro w c hc
    rw [seed_worker_cursors, key w]
    simp [hc]
  · intro w hw
    rw [seed_worker_cursors, key w]
    have : ¬ w < max 1 workers := by omega
    simp [this]

/-- Witness for C5: 4 workers, 10 accounts, base index 2, worker 1's
cursor file pre-existing with content 7: workers 0, 2, 3 are seeded to
2, 4, 5 and worker 1 keeps 7. -/
theorem worker_cursor_seeding_witness :
    (10 : Nat) ≠ 0 ∧
    seed_worker_cursors 10 (some 2) 4 (fun w => if w = 1 then some 7 else none) 0 = some 2 ∧
    seed_worker_cursors 10 (some 2) 4 (fun w => if w = 1 then some 7 else none) 1 = some 7 ∧
    seed_worker_cursors 10 (some 2) 4 (fun w => if w = 1 then some 7 else none) 2 = some 4 ∧
    seed_worker_cursors 10 (some 2) 4 (fun w => if w = 1 then some 7 else none) 3 = some 5 ∧
    seed_worker_cursors 10 (some 2) 4 (fun w => if w = 1 then some 7 else none) 9 = none := by
  have h := worker_cursor_seeding 10 (some 2) 4
    (fun w => if w = 1 then some 7 else none) (by decide)
  refine ⟨by decide, ?_, ?_, ?_, ?_, ?_⟩
  · have := h.1 0 (by decide) (by decide)
    simpa [seed_base] using this
  · exact h.2.1 1 7 (by decide)
  · have := h.1 2 (by decide) (by decide)
    simpa [seed_base] using this
  · have := h.1 3 (by decide) (by decide)
    simpa [seed_base] using this
  · have := h.2.2 9 (by decide)
    simpa using this

/-- C6: Account dedup precedence.  Two valid records with the same
normalised email and timestamps 10 and 20: the loaded pool holds exactly
the timestamp-20 record (hence its password), whichever order the records
arrive in; a missing timestamp counts as 0. -/
theorem account_dedup_precedence (a1 a2 : Account)
    (hv1 : a1.email ≠ "" ∧ a1.password ≠ "")
    (hv2 : a2.email ≠ "" ∧ a2.password ≠ "")
    (he : pyStripLower a1.email = pyStripLower a2.email)
    (hne : pyStripLower a1.email ≠ "")
    (h1 : tsOf a1 = 10) (h2 : tsOf a2 = 20) :
    (load_accounts [a1, a2]).map Account.password = [a2.password] ∧
    (load_accounts [a2, a1]).map Account.password = [a2.password] ∧
    (∀ a : Account, a.timestamp = none → tsOf a = 0) := by
  have hne2 : pyStripLower a2.email ≠ "" := he ▸ hne
  have hord : tsOf a1 ≤ tsOf a2 := by rw [h1, h2]; decide
  have hnord : ¬ tsOf a2 ≤ tsOf a1 := by rw [h1, h2]; decide
  refine ⟨?_, ?_, fun a h => by simp [tsOf, h]⟩
  · simp [load_accounts, dedup_by_email, dictSet, alookup, hv1.1, hv1.2,
      hv2.1, hv2.2, hne, hne2, he, hord]
  · simp [load_accounts, dedup_by_email, dictSet, alookup, hv1.1, hv1.2,
      hv2.1, hv2.2, hne, hne2, he, hnord]

/-- Witness for C6: records `U@x.com`/ts 10 and `u@X.com `/ts 20 — the
pool keeps password `p2` in either input order. -/
theorem account_dedup_precedence_witness :
    ((⟨"U@x.com", "p1", some 10⟩ : Account).email ≠ "" ∧
      (⟨"U@x.com", "p1", some 10⟩ : Account).password ≠ "") ∧
    pyStripLower "U@x.com" = pyStripLower "u@X.com " ∧
    (load_accounts [⟨"U@x.com", "p1", some 10⟩, ⟨"u@X.com ", "p2", some 20⟩]).map
        Account.password = ["p2"] ∧
    (load_accounts [⟨"u@X.com ", "p2", some 20⟩, ⟨"U@x.com", "p1", some 10⟩]).map
        Account.password = ["p2"] := by
  have h := account_dedup_precedence ⟨"U@x.com", "p1", some 10⟩ ⟨"u@X.com ", "p2", some 20⟩
    (by decide) (by decide) (by decide) (by decide) (by decide) (by decide)
  exact ⟨by decide, by decide, h.1, h.2.1⟩

/-- `applyPoolOps` keeps the cursor below the pool size. -/
theorem applyPoolOps_lt (n : Nat) (hn : 0 < n) (ops : List PoolOp) :
    ∀ idx, idx < n → applyPoolOps n idx ops < n := by
  induction ops with
  | nil => intro idx h; simpa [applyPoolOps] using h
  | cons op rest ih =>
    intro idx h
    rw [applyPoolOps, List.foldl_cons]
    apply ih
    cases op with
    | next => exact Nat.mod_lt _ hn
    | forceSet i =>
      show (i % (n : Int)).toNat < n
      have h1 : 0 ≤ i % (n : Int) := Int.emod_nonneg i (by exact_mod_cast hn.ne')
      have h2 : i % (n : Int) < (n : Int) := Int.emod_lt_of_pos i (by exact_mod_cast hn)
      omega

/-- C10: cursor-range invariant.  For a successfully constructed pool
(non-empty accounts list), the cursor starts in range — the persisted
value is used only when in `[0, n)`, anything else falls back to `0` —
and stays in range under any sequence of `next`/`force_set_index`
operations, so `current()` always indexes within the accounts list. -/
theorem cursor_range_invariant (accounts : List Account) (content : Option Int)
    (ops : List PoolOp) (h : accounts ≠ []) :
    applyPoolOps accounts.length (load_cursor accounts.length content) ops <
      accounts.length ∧
    (accounts.get? (applyPoolOps accounts.length
      (load_cursor accounts.length content) ops)).isSome := by
  have hn : 0 < accounts.length := List.length_pos.mpr h
  have hinit : load_cursor accounts.length content < accounts.length := by
    cases content with
    | none => simpa [load_cursor] using hn
    | some i =>
      by_cases hir : 0 ≤ i ∧ i < (accounts.length : Int)
      · simp only [load_cursor, if_pos hir]
        omega
      · simp only [load_cursor, if_neg hir]
        exact hn
  have hlt := applyPoolOps_lt accounts.length hn ops _ hinit
  exact ⟨hlt, by rw [List.get?_eq_get hlt]; simp⟩

/-- Witness for C10: one real pool — 2 accounts, a corrupt persisted
cursor value 5 (out of range, so load falls back to 0), then
`next(); force_set_index(-3); next()`: the cursor stays in `[0, 2)`. -/
theorem cursor_range_invariant_witness :
    rotWAccounts ≠ [] ∧
    applyPoolOps rotWAccounts.length (load_cursor rotWAccounts.length (some 5))
      [.next, .forceSet (-3), .next] < rotWAccounts.length ∧
    (rotWAccounts.get? (applyPoolOps rotWAccounts.length
      (load_cursor rotWAccounts.length (some 5))
      [.next, .forceSet (-3), .next])).isSome := by
  have h := cursor_range_invariant rotWAccounts (some 5)
    [.next, .forceSet (-3), .next] (by decide)
  exact ⟨by decide, h.1, h.2⟩

/-- C8: Progress frame property.  `markDone(page_no, url, rows_count)`
(one read-merge-write cycle under the progress lock) sets exactly the
done entry keyed `str(page_no)`; the entry of every other page number —
indeed of every other string key — is unchanged, the whole `meta` section
(including the cached page index) is unchanged, and `done` only grows. -/
theorem progress_frame (file : Option Progress) (page_no : Nat) (url : String)
    (rows_count ts : Nat) :
    alookup (Nat.repr page_no) (mark_done file page_no url rows_count ts).done =
      some ⟨url, rows_count, ts⟩ ∧
    (∀ q : Nat, q ≠ page_no →
      alookup (Nat.repr q) (mark_done file page_no url rows_count ts).done =
        alookup (Nat.repr q) (load_progress file).done) ∧
    (∀ k : String, k ≠ Nat.repr page_no →
      alookup k (mark_done file page_no url rows_count ts).done =
        alookup k (load_progress file).done) ∧
    (mark_done file page_no url rows_count ts).meta = (load_progress file).meta ∧
    (∀ k, (alookup k (load_progress file).done).isSome →
      (alookup k (mark_done file page_no url rows_count ts).done).isSome) := by
  refine ⟨?_, ?_, ?_, rfl, ?_⟩
  · exact alookup_dictSet_self _ _ _
  · intro q hq
    exact alookup_dictSet_ne _ _ _ _
      (fun h => hq (Nat.repr_injective h))
  · intro k hk
    exact alookup_dictSet_ne _ _ _ _ hk
  · intro k hsome
    have hunfold : (mark_done file page_no url rows_count ts).done =
        dictSet (load_progress file).done (Nat.repr page_no)
          ⟨url, rows_count, ts⟩ := rfl
    by_cases hk : k = Nat.repr page_no
    · subst hk
      rw [hunfold, alookup_dictSet_self]
      rfl
    · rw [hunfold, alookup_dictSet_ne _ _ _ _ hk]
      exact hsome

/-- Witness for C8: a progress file with pages 3 and 7 done; marking page
3 done again rewrites only key `"3"`, keeps key `"7"` and the cached
index, and both keys stay present. -/
theorem progress_frame_witness :
    alookup (Nat.repr 3)
      (mark_done (some ⟨[("3", ⟨"http://p3", 5, 100⟩), ("7", ⟨"http://p7", 9, 101⟩)],
        [(1, "http://p1")]⟩) 3 "http://p3b" 6 200).done = some ⟨"http://p3b", 6, 200⟩ ∧
    alookup (Nat.repr 7)
      (mark_done (some ⟨[("3", ⟨"http://p3", 5, 100⟩), ("7", ⟨"http://p7", 9, 101⟩)],
        [(1, "http://p1")]⟩) 3 "http://p3b" 6 200).done = some ⟨"http://p7", 9, 101⟩ ∧
    (mark_done (some ⟨[("3", ⟨"http://p3", 5, 100⟩), ("7", ⟨"http://p7", 9, 101⟩)],
        [(1, "http://p1")]⟩) 3 "http://p3b" 6 200).meta = [(1, "http://p1")] := by
  have h := progress_frame (some ⟨[("3", ⟨"http://p3", 5, 100⟩),
    ("7", ⟨"http://p7", 9, 101⟩)], [(1, "http://p1")]⟩) 3 "http://p3b" 6 200
  refine ⟨h.1, ?_, ?_⟩
  · have := h.2.1 7 (by decide)
    rw [this]
    decide
  · rw [h.2.2.2.1]
    rfl

/-- C3 (code evaluated at the failing input): the discovered JSONL already
holds `http://example.com/ship.aspx?id=1` (no node file yet, so the URL is
pending).  `__init__` re-reads the log but — because the loop body is
`pass` — seeds `_seen_urls` empty, and a re-discovery of the same URL is
appended to the log a second time: after restart the log holds the
canonical URL twice, contradicting the crawler's own docstring
("жёсткая дедупликация … только новые записи"). -/
theorem discovered_log_duplicate_on_restart :
    canonical "http://example.com/ship.aspx?id=1" = "http://example.com/ship.aspx?id=1" ∧
    (crawlerInit [] [("http://example.com/ship.aspx?id=1", "YardA")]).seen = [] ∧
    ((append_discovered (crawlerInit [] [("http://example.com/ship.aspx?id=1", "YardA")])
        [("http://example.com/ship.aspx?id=1", "YardA")]).discoveredLog.map
          Prod.fst).count "http://example.com/ship.aspx?id=1" = 2 := by
  decide

/-- C4 counterexample: two spellings with equal canonical forms.
`_load_urls` keeps **both** as work items (its dedup key is the exact
stripped spelling, not the canonical URL), and its `_origin_by_url` map
keeps the **last**-seen origin for their shared canonical key — refuting
"exactly one work item" and "first-seen origin wins" for the rotating
collector's loader cited by the claim. -/
theorem frontier_dedup_counterexample :
    canonical_url "HTTP://Example.com:80/x?q=1#frag" = canonical_url "http://example.com/x?q=1" ∧
    (load_urls [⟨"HTTP://Example.com:80/x?q=1#frag", some "YardA"⟩,
        ⟨"http://example.com/x?q=1", some "YardB"⟩]).uniq =
      ["HTTP://Example.com:80/x?q=1#frag", "http://example.com/x?q=1"] ∧
    alookup (canonical_url "http://example.com/x?q=1")
      (load_urls [⟨"HTTP://Example.com:80/x?q=1#frag", some "YardA"⟩,
        ⟨"http://example.com/x?q=1", some "YardB"⟩]).originByUrl = some "YardB" := by
  decide

theorem alookup_isSome_iff_mem {V : Type} (k : String) (m : List (String × V)) :
    (alookup k m).isSome ↔ k ∈ m.map Prod.fst := by
  rw [← not_iff_not, Option.not_isSome_iff_eq_none, alookup_eq_none_iff]

/-- `setdefault` preserves key uniqueness. -/
theorem setdefault_nodup_keys {V : Type} (m : List (String × V)) (k : String) (v : V)
    (h : (m.map Prod.fst).Nodup) : ((setdefault m k v).map Prod.fst).Nodup := by
  unfold setdefault
  by_cases hs : (alookup k m).isSome
  · simp [hs, h]
  · simp only [hs, if_false, Bool.false_eq_true]
    have hk : k ∉ m.map Prod.fst := by
      rw [← alookup_eq_none_iff]
      exact Option.not_isSome_iff_eq_none.mp hs
    have hperm : List.Perm ((m ++ [(k, v)]).map Prod.fst) (((k, v) :: m).map Prod.fst) := by
      exact (List.perm_append_singleton (k, v) m).map Prod.fst
    exact hperm.nodup_iff.mpr (by simp [h, hk])

/-- Folding any items through `setdefault` preserves key uniqueness. -/
theorem foldl_setdefault_nodup {α V : Type} (key : α → String) (val : α → V)
    (skip : α → Bool) :
    ∀ (l : List α) (m : List (String × V)), (m.map Prod.fst).Nodup →
    ((l.foldl (fun m x => if skip x then m else setdefault m (key x) (val x)) m).map
      Prod.fst).Nodup := by
  intro l
  induction l with
  | nil => intro m h; simpa
  | cons x rest ih =>
    intro m h
    rw [List.foldl_cons]
    by_cases hx : skip x
    · simpa [hx] using ih m h
    · simpa [hx] using ih _ (setdefault_nodup_keys m (key x) (val x) h)

theorem insertStr_perm (x : String) (l : List String) :
    List.Perm (insertStr x l) (x :: l) := by
  induction l with
  | nil => exact List.Perm.refl _
  | cons y ys ih =>
    rw [insertStr]
    by_cases h : strLe x y
    · simp [h]
    · simp only [h, Bool.false_eq_true, if_false]
      exact (ih.cons y).trans (List.Perm.swap x y ys)

theorem sortStrings_perm (l : List String) : List.Perm (sortStrings l) l := by
  induction l with
  | nil => exact List.Perm.refl _
  | cons x xs ih =>
    rw [sortStrings]
    exact (insertStr_perm x _).trans (ih.cons x)

/-- Key uniqueness of the inner fold of `seed_items_map`. -/
theorem seed_inner_nodup (oy : String) :
    ∀ (links : List String) (m : List (String × String)),
    (m.map Prod.fst).Nodup →
    ((links.foldl (fun m lnk =>
        let u := canonical (pyStripStr lnk)
        if u = "" then m else setdefault m u oy) m).map Prod.fst).Nodup := by
  intro links
  induction links with
  | nil => intro m h; simpa
  | cons lnk rest ih =>
    intro m h
    rw [List.foldl_cons]
    by_cases hu : canonical (pyStripStr lnk) = ""
    · simpa [hu] using ih m h
    · simpa [hu] using ih _ (setdefault_nodup_keys m _ oy h)

/-- Key uniqueness of `seed_items_map`. -/
theorem seed_items_map_nodup (files : List OrderbookFile) :
    ((seed_items_map files).map Prod.fst).Nodup := by
  rw [seed_items_map]
  have : ∀ (fs : List OrderbookFile) (m : List (String × String)),
      (m.map Prod.fst).Nodup →
      ((fs.foldl (fun m f =>
          let origin_yard := pyStripStr f.name
          f.links.foldl (fun m lnk =>
            let u := canonical (pyStripStr lnk)
            if u = "" then m else setdefault m u origin_yard) m) m).map Prod.fst).Nodup := by
    intro fs
    induction fs with
    | nil => intro m h; simpa
    | cons f rest ih =>
      intro m h
      rw [List.foldl_cons]
      exact ih _ (seed_inner_nodup (pyStripStr f.name) f.links m h)
  exact this _ [] (by simp)

/-- C4 amended: in the recursive sister-crawl's `_load_seed_items` the
dedup key is the canonical URL — one work item per canonical form, with
the first-seen origin winning — but in the rotating collector's
`_load_urls` the dedup key is the exact stripped spelling, so two
spellings with equal canonical forms stay two work items, and the
`_origin_by_url` side map keeps the last-seen origin for a canonical
key. -/
theorem frontier_dedup_amended :
    (∀ files : List OrderbookFile, ((load_seed_items files).map Prod.fst).Nodup) ∧
    load_seed_items [⟨"YardA", ["HTTP://Example.com:80/x?q=1#frag"]⟩,
        ⟨"YardB", ["http://example.com/x?q=1"]⟩] =
      [("http://example.com/x?q=1", "YardA")] ∧
    (load_urls [⟨"http://example.com/x?q=1", some "YardA"⟩,
        ⟨"http://example.com/x?q=1", some "YardB"⟩]).uniq =
      ["http://example.com/x?q=1"] ∧
    (load_urls [⟨"HTTP://Example.com:80/x?q=1#frag", some "YardA"⟩,
        ⟨"http://example.com/x?q=1", some "YardB"⟩]).uniq.length = 2 ∧
    alookup (canonical_url "HTTP://Example.com:80/x?q=1#frag")
      (load_urls [⟨"HTTP://Example.com:80/x?q=1#frag", some "YardA"⟩,
          ⟨"http://example.com/x?q=1", some "YardB"⟩]).originByUrl = some "YardB" := by
  refine ⟨?_, by decide, by decide, by decide, by decide⟩
  intro files
  have hkeys : (load_seed_items files).map Prod.fst =
      sortStrings ((seed_items_map files).map Prod.fst) := by
    rw [load_seed_items]
    simp only [List.map_map]
    have hid : (Prod.fst ∘ fun u => (u, (alookup u (seed_items_map files)).getD "")) =
        id := rfl
    rw [hid, List.map_id]
  rw [hkeys]
  exact ((sortStrings_perm _).nodup_iff).mpr (seed_items_map_nodup files)

/-- C1: Idempotent resume.  For any frontier whose URLs all have a node
file, `run()` — which recomputes `pending = urls − store` from node-file
existence at run start — finds an empty pending list, processes and saves
nothing, leaves the node store untouched, performs no action at all, and
returns `(len(urls), 0)`.  In particular a second invocation after a
completed run with the same frontier and no new seeds is a no-op. -/
theorem idempotent_resume (cfg : RotCfg) (oracle : RotOracle)
    (urls : List String) (s0 : RotState)
    (h : ∀ u ∈ urls, u ∈ s0.store) :
    pending_urls urls s0.store = [] ∧
    runCollector cfg oracle urls s0 = ((urls.length, 0), s0, []) := by
  have hpending : pending_urls urls s0.store = [] := by
    rw [pending_urls, List.filter_eq_nil_iff]
    intro u hu
    simp [List.elem_eq_mem, h u hu]
  refine ⟨hpending, ?_⟩
  rw [runCollector, hpending]
  cases hmax : cfg.max_items_per_run with
  | none => simp
  | some m =>
    by_cases hm : 0 < m
    · simp [hm]
    · simp [hm]

/-- Witness for C1: a one-URL frontier whose node file exists — the run
returns `(1, 0)` and changes nothing. -/
theorem idempotent_resume_witness :
    (∀ u ∈ ["http://a"], u ∈ rotResumeState.store) ∧
    runCollector rotWCfg rotIdleOracle ["http://a"] rotResumeState =
      ((1, 0), rotResumeState, []) := by
  have h := idempotent_resume rotWCfg rotIdleOracle ["http://a"] rotResumeState
    (by decide)
  exact ⟨by decide, h.2⟩

/-- The retry loop only re-fetches the same URL: it consumes `k` oracle
steps and emits `k` `fetchPage url` actions. -/
theorem retryLoop_spec (oracle : RotOracle) (url : String) (m : Nat) :
    ∀ (rem : Nat) (last : FetchResult) (s : RotState),
    ∃ (k : Nat) (res : FetchResult),
      retryLoop oracle url m rem last s =
        (res, { s with fetchCount := s.fetchCount + k },
         List.replicate k (.fetchPage url)) := by
  intro rem
  induction rem with
  | zero =>
    intro last s
    refine ⟨0, last, ?_⟩
    simp [retryLoop]
  | succ rem ih =>
    intro last s
    rw [retryLoop]
    by_cases hlt : last.tables < m
    · obtain ⟨k', res, hrec⟩ := ih (oracle.fetch s.fetchCount)
        { s with fetchCount := s.fetchCount + 1 }
      have harith : s.fetchCount + 1 + k' = s.fetchCount + (k' + 1) := by omega
      refine ⟨k' + 1, res, ?_⟩
      simp [hlt, doFetch, hrec, List.replicate_succ, harith]
    · refine ⟨0, last, ?_⟩
      simp [hlt]

/-- `_parse_with_retry` fetches the same URL at least once (at most
`1 + retries` times), consuming `k` oracle steps and emitting `k`
`fetchPage url` actions; nothing else in the state changes. -/
theorem parse_with_retry_spec (oracle : RotOracle) (url : String) (m retries : Nat)
    (s : RotState) :
    ∃ (k : Nat) (res : FetchResult), 1 ≤ k ∧
      parse_with_retry oracle url m retries s =
        (res, { s with fetchCount := s.fetchCount + k },
         List.replicate k (.fetchPage url)) := by
  obtain ⟨k', res, hrec⟩ := retryLoop_spec oracle url m retries
    (oracle.fetch s.fetchCount) { s with fetchCount := s.fetchCount + 1 }
  have harith : s.fetchCount + 1 + k' = s.fetchCount + (k' + 1) := by omega
  refine ⟨k' + 1, res, by omega, ?_⟩
  rw [parse_with_retry]
  simp [doFetch, hrec, List.replicate_succ, harith]

/-- C2: Rotation on quota signal.  In automatic-relogin mode, when the
fetcher reports the daily-limit banner after fetching a URL not yet in
the node store, the worker: fetches the URL (`a ≥ 1` page loads), clicks
logout, advances the cursor to `(index+1) mod size` and persists that
index to the cursor file (the `advanceCursor` action and the new entry in
`cursorWrites`), logs in as the account at the new index, re-fetches the
*same* URL once (`b ≥ 1` page loads of the same `url`), saves the node,
and only then moves on (`tail` holds at most one further rotation); the
per-session counter was reset by the rotation, so it is at most 1
afterwards. -/
theorem rotation_on_quota (cfg : RotCfg) (oracle : RotOracle) (s : RotState)
    (url : String)
    (hman : cfg.relogin_manual = false)
    (hstore : s.store.contains url = false)
    (hbanner : (parse_with_retry oracle url cfg.min_tables_required 2 s).1.banner = true) :
    ∃ (a b t : Nat) (tail : List RotAction) (sF : RotState),
      1 ≤ a ∧ 1 ≤ b ∧
      processItem cfg oracle s url =
        (sF, List.replicate a (.fetchPage url) ++
          [.logoutClick, .advanceCursor ((s.idx + 1) % s.accounts.length),
           .loginAs (emailAt s.accounts ((s.idx + 1) % s.accounts.length))] ++
          List.replicate b (.fetchPage url) ++ [.saveNode url t] ++ tail) ∧
      (∃ rest, sF.cursorWrites =
          s.cursorWrites ++ (s.idx + 1) % s.accounts.length :: rest) ∧
      sF.store = s.store ++ [url] ∧
      sF.processed_total = s.processed_total + 1 ∧
      sF.processed_since_login ≤ 1 := by
  obtain ⟨a, r1, ha, hpr1⟩ := parse_with_retry_spec oracle url cfg.min_tables_required 2 s
  rw [hpr1] at hbanner
  simp only [Prod.fst] at hbanner
  simp only [processItem, hstore, Bool.false_eq_true, if_false, hpr1, hbanner,
    rotateAccount, hman, if_true]
  obtain ⟨b, r2, hb, hpr2⟩ := parse_with_retry_spec oracle url cfg.min_tables_required 2
    { accounts := s.accounts, idx := (s.idx + 1) % s.accounts.length,
      cursorWrites := s.cursorWrites ++ [(s.idx + 1) % s.accounts.length],
      store := s.store, processed_total := s.processed_total,
      processed_since_login := 0, fetchCount := s.fetchCount + a,
      loginCount := s.loginCount + 1 }
  simp only [hpr2]
  by_cases hthin : r2.tables < cfg.min_tables_required
  · simp only [hthin, if_true, if_pos]
    exact ⟨a, b, r2.tables,
      [.logoutClick,
       .advanceCursor (((s.idx + 1) % s.accounts.length + 1) % s.accounts.length),
       .loginAs (emailAt s.accounts
         (((s.idx + 1) % s.accounts.length + 1) % s.accounts.length))],
      _, ha, hb, rfl,
      ⟨[((s.idx + 1) % s.accounts.length + 1) % s.accounts.length], by simp⟩,
      rfl, rfl, by simp⟩
  · simp only [hthin, if_false]
    by_cases hbatch : cfg.batch_logout_every ≠ 0 ∧ cfg.batch_logout_every ≤ 0 + 1
    · rw [if_pos hbatch]
      refine ⟨a, b, r2.tables,
        [.logoutClick,
         .advanceCursor (((s.idx + 1) % s.accounts.length + 1) % s.accounts.length),
         .loginAs (emailAt s.accounts
           (((s.idx + 1) % s.accounts.length + 1) % s.accounts.length))],
        _, ha, hb, rfl, ?_, ?_, ?_, ?_⟩
      · exact ⟨[((s.idx + 1) % s.accounts.length + 1) % s.accounts.length], by simp⟩
      · rfl
      · rfl
      · simp
    · rw [if_neg hbatch]
      refine ⟨a, b, r2.tables, [],
        { accounts := s.accounts, idx := (s.idx + 1) % s.accounts.length,
          cursorWrites := s.cursorWrites ++ [(s.idx + 1) % s.accounts.length],
          store := s.store ++ [url], processed_total := s.processed_total + 1,
          processed_since_login := 0 + 1, fetchCount := s.fetchCount + a + b,
          loginCount := s.loginCount + 1 },
        ha, hb, ?_, ⟨[], rfl⟩, rfl, rfl, by simp⟩
      simp

/-- Witness for C2: the concrete two-account pool at cursor 0 with an
oracle that always shows the daily-limit banner — processing a fresh URL
rotates to account 1, persists cursor 1, logs in as `b@x.com`, and
re-fetches the URL before saving. -/
theorem rotation_on_quota_witness :
    rotWCfg.relogin_manual = false ∧
    rotWState.store.contains "http://u" = false ∧
    (parse_with_retry rotWOracle "http://u" rotWCfg.min_tables_required 2
      rotWState).1.banner = true ∧
    (∃ (a b t : Nat) (tail : List RotAction) (sF : RotState),
      1 ≤ a ∧ 1 ≤ b ∧
      processItem rotWCfg rotWOracle rotWState "http://u" =
        (sF, List.replicate a (.fetchPage "http://u") ++
          [.logoutClick,
           .advanceCursor ((rotWState.idx + 1) % rotWState.accounts.length),
           .loginAs (emailAt rotWState.accounts
             ((rotWState.idx + 1) % rotWState.accounts.length))] ++
          List.replicate b (.fetchPage "http://u") ++ [.saveNode "http://u" t] ++ tail) ∧
      (∃ rest, sF.cursorWrites = rotWState.cursorWrites ++
          (rotWState.idx + 1) % rotWState.accounts.length :: rest) ∧
      sF.store = rotWState.store ++ ["http://u"] ∧
      sF.processed_total = rotWState.processed_total + 1 ∧
      sF.processed_since_login ≤ 1) :=
  ⟨by decide, by decide, by decide,
   rotation_on_quota rotWCfg rotWOracle rotWState "http://u"
     (by decide) (by decide) (by decide)⟩

theorem ginv_step {oracle : GOracle} {s t : GState}
    (hstep : GStep oracle s t) (hinv : GInv s) : GInv t := by
  obtain ⟨hnd, hhold, hfet, hstore, hwork⟩ := hinv
  cases hstep with
  | checkExit w hpc hstop =>
    refine ⟨hnd, fun w' u hw' => ?_, hfet, hstore, fun w' u hw' => ?_⟩ <;>
      simp only [Function.update_apply] at hw' <;> by_cases hww : w' = w <;>
      simp [hww] at hw' <;>
      first
        | exact hhold w' u hw'
        | exact hwork w' u hw'
  | checkEnter w hpc hstop =>
    refine ⟨hnd, fun w' u hw' => ?_, hfet, hstore, fun w' u hw' => ?_⟩ <;>
      simp only [Function.update_apply] at hw' <;> by_cases hww : w' = w <;>
      simp [hww] at hw' <;>
      first
        | exact hhold w' u hw'
        | exact hwork w' u hw'
  | popItem w u rest hpc hq =>
    have hrest : rest.Nodup := ((List.nodup_cons.mp (hq ▸ hnd))).2
    have hunotin : u ∉ rest := ((List.nodup_cons.mp (hq ▸ hnd))).1
    refine ⟨hrest, fun w' v hw' => ?_, fun v hv => ?_, hstore, fun w' v hw' => ?_⟩
    · simp only [Function.update_apply] at hw'
      by_cases hww : w' = w
      · rw [if_pos hww] at hw'
        rcases hw' with h | h | h
        · cases h
          exact hunotin
        · cases h
        · cases h
      · rw [if_neg hww] at hw'
        have := hhold w' v hw'
        rw [hq] at this
        exact fun hmem => this (List.mem_cons_of_mem u hmem)
    · have := hfet v hv
      rw [hq] at this
      exact fun hmem => this (List.mem_cons_of_mem u hmem)
    · simp only [Function.update_apply] at hw'
      by_cases hww : w' = w
      · rw [if_pos hww] at hw'
        cases hw'
      · rw [if_neg hww] at hw'
        exact hwork w' v hw'
  | popEmpty w hpc hq =>
    refine ⟨hnd, fun w' u hw' => ?_, hfet, hstore, fun w' u hw' => ?_⟩ <;>
      simp only [Function.update_apply] at hw' <;> by_cases hww : w' = w <;>
      simp [hww] at hw' <;>
      first
        | exact hhold w' u hw'
        | exact hwork w' u hw'
  | postCheckStop w u hpc hstop =>
    refine ⟨hnd, fun w' v hw' => ?_, hfet, hstore, fun w' v hw' => ?_⟩ <;>
      simp only [Function.update_apply] at hw' <;> by_cases hww : w' = w <;>
      simp [hww] at hw' <;>
      first
        | exact hhold w' v hw'
        | exact hwork w' v hw'
  | postCheckGo w u hpc hstop =>
    refine ⟨hnd, fun w' v hw' => ?_, hfet, hstore, fun w' v hw' => ?_⟩
    · simp only [Function.update_apply] at hw'
      by_cases hww : w' = w
      · rw [if_pos hww] at hw'
        rcases hw' with h | h | h
        · cases h
        · cases h
          exact hhold w u (Or.inl hpc)
        · cases h
      · rw [if_neg hww] at hw'
        exact hhold w' v hw'
    · simp only [Function.update_apply] at hw'
      by_cases hww : w' = w
      · rw [if_pos hww] at hw'
        cases hw'
      · rw [if_neg hww] at hw'
        exact hwork w' v hw'
  | startFetch w u hpc =>
    refine ⟨hnd, fun w' v hw' => ?_, fun v hv => ?_, fun v hv => ?_, fun w' v hw' => ?_⟩
    · simp only [Function.update_apply] at hw'
      by_cases hww : w' = w
      · rw [if_pos hww] at hw'
        rcases hw' with h | h | h
        · cases h
        · cases h
        · cases h
          exact hhold w u (Or.inr (Or.inl hpc))
      · rw [if_neg hww] at hw'
        exact hhold w' v hw'
    · rcases List.mem_append.mp hv with h | h
      · exact hfet v h
      · have hvu : v = u := by simpa using h
        exact hvu ▸ hhold w u (Or.inr (Or.inl hpc))
    · exact List.mem_append_left _ (hstore v hv)
    · simp only [Function.update_apply] at hw'
      by_cases hww : w' = w
      · rw [if_pos hww] at hw'
        cases hw'
        exact List.mem_append_right _ (by simp)
      · rw [if_neg hww] at hw'
        exact List.mem_append_left _ (hwork w' v hw')
  | finishOk w u hpc hfail htab =>
    refine ⟨hnd, fun w' v hw' => ?_, hfet, fun v hv => ?_, fun w' v hw' => ?_⟩
    · simp only [Function.update_apply] at hw'
      by_cases hww : w' = w
      · simp [hww] at hw'
      · simp [hww] at hw'
        exact hhold w' v hw'
    · rcases List.mem_append.mp hv with h | h
      · exact hstore v h
      · have : v = u := by simpa using h
        exact this ▸ hwork w u hpc
    · simp only [Function.update_apply] at hw'
      by_cases hww : w' = w
      · simp [hww] at hw'
      · simp [hww] at hw'
        exact hwork w' v hw'
  | finishLow w u hpc hfail htab =>
    refine ⟨hnd, fun w' v hw' => ?_, hfet, fun v hv => ?_, fun w' v hw' => ?_⟩
    · simp only [Function.update_apply] at hw'
      by_cases hww : w' = w
      · simp [hww] at hw'
      · simp [hww] at hw'
        exact hhold w' v hw'
    · rcases List.mem_append.mp hv with h | h
      · exact hstore v h
      · have : v = u := by simpa using h
        exact this ▸ hwork w u hpc
    · simp only [Function.update_apply] at hw'
      by_cases hww : w' = w
      · simp [hww] at hw'
      · simp [hww] at hw'
        exact hwork w' v hw'
  | finishErr w u hpc hfail =>
    refine ⟨hnd, fun w' v hw' => ?_, hfet, hstore, fun w' v hw' => ?_⟩ <;>
      simp only [Function.update_apply] at hw' <;> by_cases hww : w' = w <;>
      simp [hww] at hw' <;>
      first
        | exact hhold w' v hw'
        | exact hwork w' v hw'
  | drainOne w u rest hpc hq =>
    have hrest : rest.Nodup := ((List.nodup_cons.mp (hq ▸ hnd))).2
    refine ⟨hrest, fun w' v hw' => ?_, fun v hv => ?_, hstore, hwork⟩
    · have := hhold w' v hw'
      rw [hq] at this
      exact fun hmem => this (List.mem_cons_of_mem u hmem)
    · have := hfet v hv
      rw [hq] at this
      exact fun hmem => this (List.mem_cons_of_mem u hmem)
  | drainDone w hpc hq =>
    refine ⟨hnd, fun w' u hw' => ?_, hfet, hstore, fun w' u hw' => ?_⟩ <;>
      simp only [Function.update_apply] at hw' <;> by_cases hww : w' = w <;>
      simp [hww] at hw' <;>
      first
        | exact hhold w' u hw'
        | exact hwork w' u hw'

/-- `_stop_event` is never cleared: the flag is monotone along steps. -/
theorem gstep_stop_mono {oracle : GOracle} {s t : GState}
    (hstep : GStep oracle s t) (hstop : s.stop = true) : t.stop = true := by
  cases hstep <;> first
    | exact hstop
    | rfl

theorem safeU_step {oracle : GOracle} {u : String} {s t : GState}
    (hstep : GStep oracle s t) (hsafe : SafeU u s) : SafeU u t := by
  obtain ⟨hstop, hfet, hhold⟩ := hsafe
  cases hstep with
  | checkExit w hpc hstop' =>
    refine ⟨hstop, hfet, fun w' => ?_⟩
    simp only [Function.update_apply]
    by_cases hww : w' = w
    · simp [hww]
    · simpa [hww] using hhold w'
  | checkEnter w hpc hstop' =>
    rw [hstop] at hstop'
    cases hstop'
  | popItem w v rest hpc hq =>
    refine ⟨hstop, hfet, fun w' => ?_⟩
    simp only [Function.update_apply]
    by_cases hww : w' = w
    · simp [hww]
    · simpa [hww] using hhold w'
  | popEmpty w hpc hq =>
    refine ⟨hstop, hfet, fun w' => ?_⟩
    simp only [Function.update_apply]
    by_cases hww : w' = w
    · simp [hww]
    · simpa [hww] using hhold w'
  | postCheckStop w v hpc hstop' =>
    refine ⟨hstop, hfet, fun w' => ?_⟩
    simp only [Function.update_apply]
    by_cases hww : w' = w
    · simp [hww]
    · simpa [hww] using hhold w'
  | postCheckGo w v hpc hstop' =>
    rw [hstop] at hstop'
    cases hstop'
  | startFetch w v hpc =>
    have hvu : v ≠ u := fun h => (hhold w).1 (h ▸ hpc)
    refine ⟨hstop, ?_, fun w' => ?_⟩
    · intro hmem
      rcases List.mem_append.mp hmem with h | h
      · exact hfet h
      · have huv : u = v := by simpa using h
        exact hvu huv.symm
    · simp only [Function.update_apply]
      by_cases hww : w' = w
      · simp [hww]
        exact fun h => hvu h
      · simpa [hww] using hhold w'
  | finishOk w v hpc hfail htab =>
    refine ⟨hstop, hfet, fun w' => ?_⟩
    simp only [Function.update_apply]
    by_cases hww : w' = w
    · simp [hww]
    · simpa [hww] using hhold w'
  | finishLow w v hpc hfail htab =>
    refine ⟨rfl, hfet, fun w' => ?_⟩
    simp only [Function.update_apply]
    by_cases hww : w' = w
    · simp [hww]
    · simpa [hww] using hhold w'
  | finishErr w v hpc hfail =>
    refine ⟨hstop, hfet, fun w' => ?_⟩
    simp only [Function.update_apply]
    by_cases hww : w' = w
    · simp [hww]
    · simpa [hww] using hhold w'
  | drainOne w v rest hpc hq =>
    exact ⟨hstop, hfet, hhold⟩
  | drainDone w hpc hq =>
    refine ⟨hstop, hfet, fun w' => ?_⟩
    simp only [Function.update_apply]
    by_cases hww : w' = w
    · simp [hww]
    · simpa [hww] using hhold w'

theorem safeU_reach {oracle : GOracle} {u : String} {s t : GState}
    (hreach : GReach oracle s t) (hsafe : SafeU u s) : SafeU u t := by
  induction hreach with
  | refl => exact hsafe
  | tail hr hstep ih => exact safeU_step hstep ih

theorem ginv_reach {oracle : GOracle} {s t : GState}
    (hreach : GReach oracle s t) (hinv : GInv s) : GInv t := by
  induction hreach with
  | refl => exact hinv
  | tail hr hstep ih => exact ginv_step hstep ih

theorem ginv_init (pending : List String) (hnd : pending.Nodup) :
    GInv (gInit pending) := by
  refine ⟨hnd, fun w u hw => ?_, ?_, ?_, fun w u hw => ?_⟩
  · simp [gInit] at hw
  · simp [gInit]
  · simp [gInit]
  · simp [gInit] at hw

/-- C9: Stop-flag cancellation.  Each worker checks the stop flag before
and after every queue pop (`checkExit`/`checkEnter` and
`postCheckStop`/`postCheckGo` in the step relation), and the worker that
observed a thin result sets the flag and drains the queue (`finishLow`,
`drainOne`).  Consequently: in any interleaved execution, every URL still
queued at a moment when the stop flag is set is never fetched and never
saved afterwards — it can only leave the queue by being drained or by a
pop whose post-check discards it. -/
theorem stop_flag_cancellation (oracle : GOracle) (pending : List String)
    (s1 s2 : GState) (u : String)
    (hnd : pending.Nodup)
    (h1 : GReach oracle (gInit pending) s1)
    (h12 : GReach oracle s1 s2)
    (hstop : s1.stop = true)
    (hq : u ∈ s1.queue) :
    u ∉ s2.fetched ∧ u ∉ s2.store := by
  have hinv1 : GInv s1 := ginv_reach h1 (ginv_init pending hnd)
  obtain ⟨hnd1, hhold, hfet, hstore, hwork⟩ := hinv1
  have hsafe1 : SafeU u s1 := by
    refine ⟨hstop, fun hmem => hfet u hmem hq, fun w => ⟨?_, ?_⟩⟩
    · intro hpc
      exact hhold w u (Or.inr (Or.inl hpc)) hq
    · intro hpc
      exact hhold w u (Or.inr (Or.inr hpc)) hq
  have hsafe2 := safeU_reach h12 hsafe1
  have hinv2 : GInv s2 := ginv_reach h12 ⟨hnd1, hhold, hfet, hstore, hwork⟩
  exact ⟨hsafe2.2.1, fun hmem => hsafe2.2.1 (hinv2.2.2.2.1 u hmem)⟩

/-- Witness for C9: a concrete interleaving — worker 0 pops and processes
`http://a`, gets 0 tables (< 1 required), saves it, sets the stop flag
and moves to draining; at that state `http://b` is still queued, and it
is never fetched nor saved from there on. -/
theorem stop_flag_cancellation_witness :
    ["http://a", "http://b"].Nodup ∧
    gw5.stop = true ∧
    "http://b" ∈ gw5.queue ∧
    "http://b" ∉ gw5.fetched ∧ "http://b" ∉ gw5.store := by
  have h01 : GStep gwOracle gw0 gw1 := GStep.checkEnter gw0 0 rfl rfl
  have h12 : GStep gwOracle gw1 gw2 :=
    GStep.popItem gw1 0 "http://a" ["http://b"] (by simp [gw1, gw0, gInit]) rfl
  have h23 : GStep gwOracle gw2 gw3 :=
    GStep.postCheckGo gw2 0 "http://a" (by simp [gw2, gw1, gw0, gInit]) rfl
  have h34 : GStep gwOracle gw3 gw4 :=
    GStep.startFetch gw3 0 "http://a" (by simp [gw3, gw2, gw1, gw0, gInit])
  have h45 : GStep gwOracle gw4 gw5 :=
    GStep.finishLow gw4 0 "http://a" (by simp [gw4, gw3, gw2, gw1, gw0, gInit])
      rfl (by decide)
  have hreach : GReach gwOracle (gInit ["http://a", "http://b"]) gw5 :=
    .tail (.tail (.tail (.tail (.tail (.refl _) h01) h12) h23) h34) h45
  have hmain := stop_flag_cancellation gwOracle ["http://a", "http://b"] gw5 gw5
    "http://b" (by decide) hreach (.refl gw5) (by decide) (by decide)
  exact ⟨by decide, by decide, by decide, hmain.1, hmain.2⟩
